import Mathlib

/-!
Verification development for the `ui_test` crate (`src/lib.rs`).

The Rust code in `src/lib.rs` is shallowly embedded below: pure functions
become Lean functions, filesystem state becomes an explicit association
list, process invocations become parameters.  Byte strings are `List Nat`
(one entry per byte), machine integers are `Nat`/`Int`, `ExitStatus::code()`
is `Option Int`.

The crate modules `parser` and `rustc_stderr` are declared in `lib.rs` but
their sources are not part of the repository snapshot; the types they export
(`Level`, `Message`, `Pattern`, `ErrorMatch`, `Revisioned`, `Comments`) are
modelled from the specification and are marked as such in their doc comments.
The external `regex` crate is modelled abstractly.
-/

/-- Modelled from the spec: the `rustc_stderr` module is not under `src/`.
Diagnostic levels, ordered `Error > Warn > Help > Note > Ico`
(the source comment in `check_annotations` states that `Error` is the
highest level). -/
inductive Level where
  | ico
  | note
  | help
  | warn
  | error
deriving DecidableEq, Repr

/-- Numeric rank of a level, used to express the order
`Error > Warn > Help > Note > Ico`. -/
def Level.toNat : Level → Nat
  | .ico => 0
  | .note => 1
  | .help => 2
  | .warn => 3
  | .error => 4

/-- Embeds `std::cmp::min` on levels (returns the first argument on ties). -/
def Level.minL (a b : Level) : Level :=
  if a.toNat ≤ b.toNat then a else b

/-- Boolean `a >= b` on levels, embedding the derived `PartialOrd`. -/
def levelGe (a b : Level) : Bool :=
  decide (b.toNat ≤ a.toNat)

/-- Modelled from the spec: the `rustc_stderr` module is not under `src/`.
A decoded compiler diagnostic: a level and a message text. -/
structure Message where
  level : Level
  message : String
deriving DecidableEq, Repr

/-- Contiguous-subsequence search (Rust `str::contains` /
`memmem`-style byte search). -/
def isInfixOfL {α : Type} [BEq α] (needle : List α) : List α → Bool
  | [] => needle.isEmpty
  | a :: rest => needle.isPrefixOf (a :: rest) || isInfixOfL needle rest

/-- Rust `str::contains` (case-sensitive substring search). -/
def containsStr (s sub : String) : Bool :=
  isInfixOfL sub.data s.data

/-- Rust `str::starts_with`. -/
def startsWithStr (s pre : String) : Bool :=
  pre.data.isPrefixOf s.data

/-- Rust `str::ends_with`. -/
def endsWithStr (s suf : String) : Bool :=
  suf.data.isSuffixOf s.data

/-- Modelled from the spec: the `parser` module is not under `src/`.
`Pattern`: `SubString(text)` is a case-sensitive substring match; `Regex`
carries the external regex engine's match predicate abstractly. -/
inductive Pattern where
  | subString (s : String)
  | regex (matcher : String → Bool)

/-- Embeds `Pattern::matches`: substring containment for `SubString`, the abstract
engine predicate for `Regex`. -/
def Pattern.matches (p : Pattern) (message : String) : Bool :=
  match p with
  | .subString s => containsStr message s
  | .regex matcher => matcher message

/-- Worker for `replaceAllExact` with explicit fuel (the fuel starts at the
length of the text; each step consumes at least one byte, so it never runs
out for a non-empty needle).  Replaces all non-overlapping occurrences of
`needle` left to right, as `bstr`'s `ByteSlice::replace` does. -/
def replaceGo (needle rep : List Nat) : Nat → List Nat → List Nat
  | 0, t => t
  | _ + 1, [] => []
  | b + 1, c :: rest =>
    if needle.isPrefixOf (c :: rest) then
      rep ++ replaceGo needle rep b ((c :: rest).drop needle.length)
    else
      c :: replaceGo needle rep b rest

/-- Embeds `bstr`'s `ByteSlice::replace(needle, rep)`: replace all non-overlapping
occurrences of `needle`, left to right.  The crate's invariant guarantees
needles are never empty; an empty needle leaves the text unchanged here. -/
def replaceAllExact (needle rep t : List Nat) : List Nat :=
  if needle = [] then t else replaceGo needle rep t.length t

/-- Abstract model of the external `regex::bytes::Regex` engine: a search
predicate, a global replacement function, and the engine's contract that a
text without any match is returned unchanged by `replace_all`. -/
structure RegexModel where
  find : List Nat → Bool
  replaceAll : List Nat → List Nat → List Nat
  replaceAll_id : ∀ t r, find t = false → replaceAll t r = t

/-- Embeds `Match`: a filter's match rule (`Regex` or `Exact` byte sequence). -/
inductive Match where
  | regex (re : RegexModel)
  | exact (needle : List Nat)

/-- Embeds `Match::replace_all`: regex global replacement, or `bstr` byte-string
replacement for exact needles. -/
def Match.replace_all (m : Match) (text replacement : List Nat) : List Nat :=
  match m with
  | .regex re => re.replaceAll text replacement
  | .exact needle => replaceAllExact needle replacement text

/-- Whether the match rule finds any occurrence in `text` (regex search, or
substring occurrence of the exact needle). -/
def Match.findsIn (m : Match) (text : List Nat) : Bool :=
  match m with
  | .regex re => re.find text
  | .exact needle => isInfixOfL needle text

/-- Bytes of a string.  Paths and outputs in this development are ASCII, where
UTF-8 code units coincide with code points. -/
def strBytes (s : String) : List Nat :=
  s.data.map Char.toNat

/-- Embeds `impl From<&Path> for Match`: strip a leading Windows verbatim prefix
`\\?\`, then replace every backslash byte with a slash byte, and use the
result as an exact needle. -/
def Match.fromPathString (p : String) : Match :=
  let bs := strBytes p
  let bs := if [92, 92, 63, 92].isPrefixOf bs then bs.drop 4 else bs
  .exact (bs.map (fun c => if c = 92 then 47 else c))

/-- The `for (regex, replacement) in filters` loop shared by `normalize`:
apply each `(Match, replacement)` pair in order, each pair replacing all
non-overlapping occurrences in the current buffer. -/
def applyFilters (filters : List (Match × List Nat)) (text : List Nat) : List Nat :=
  filters.foldl (fun t f => f.1.replace_all t f.2) text

/-- Embeds `Iterator::flat_map` over a list, written out for easy induction. -/
def concatMap {α β : Type} (f : α → List β) : List α → List β
  | [] => []
  | x :: xs => f x ++ concatMap f xs

/-- Modelled from the spec: the `parser` module is not under `src/`.
`Condition` variants: bitwidth, target substring, host substring, on-host. -/
inductive Condition where
  | bitwidth (bits : Nat)
  | target (t : String)
  | host (t : String)
  | onHost
deriving DecidableEq, Repr

/-- Embeds `Mode`: what is expected of each test's exit status. -/
inductive Mode where
  | pass
  | panic
  | fail (require_patterns : Bool)
  | yolo
deriving DecidableEq, Repr

/-- Embeds `OutputConflictHandling`: what to do when golden files differ. -/
inductive OutputConflictHandling where
  | error
  | ignore
  | bless
deriving DecidableEq, Repr

/-- A filesystem path of the shape `dir/file_stem.ext`, the fragment of
`std::path::Path` the checked code uses (`with_extension` swaps `ext`,
`parent` is `dir`). -/
structure FsPath where
  dir : String
  file_stem : String
  ext : String
deriving DecidableEq, Repr

/-- Embeds `Path::with_extension`. -/
def FsPath.with_extension (p : FsPath) (e : String) : FsPath :=
  { p with ext := e }

/-- Modelled from the spec: the `parser` module is not under `src/`.
`ErrorMatch`: a line-anchored pattern with its definition line, the line the
diagnostic is expected on, and the expected level. -/
structure ErrorMatch where
  pattern : Pattern
  definition_line : Nat
  line : Nat
  level : Level

/-- The `Error` reporting taxonomy of `lib.rs`.  `ExitStatus` values are
embedded as their `code()`, an `Option Int`. -/
inductive Error where
  | exitStatus (mode : Mode) (status : Option Int) (expected : Int)
  | patternNotFound (pattern : Pattern) (definition_line : Nat)
  | noPatternsFound
  | patternFoundInPassTest
  | outputDiffers (path : FsPath) (actual expected : List Nat)
  | errorsWithoutPattern (msgs : List Message) (path : Option (FsPath × Nat))
  | invalidComment (msg : String) (line : Nat)
  | command (kind : String) (status : Option Int)
  | bug (msg : String)

/-- Modelled from the spec: the `parser` module is not under `src/`.
`Revisioned`: all per-revision directives of one annotation block. -/
structure Revisioned where
  ignore : List Condition
  only : List Condition
  stderr_per_bitwidth : Bool
  needs_asm_support : Bool
  compile_flags : List String
  env_vars : List (String × String)
  normalize_stderr : List (Match × List Nat)
  error_patterns : List (Pattern × Nat)
  error_matches : List ErrorMatch
  require_annotations_for_level : Option Level
  run_rustfix : Bool
  aux_builds : List (String × String)
  edition : Option (String × Nat)
  mode : Option (Mode × Nat)

/-- Modelled from the spec: the `parser` module is not under `src/`.
`Comments`: the parsed annotation tree of one file — an optional revision
set and a mapping from revision-name sets to `Revisioned` records (an empty
key set applies to every revision). -/
structure Comments where
  revisions : Option (List String)
  revisioned : List (List String × Revisioned)

/-- Modelled from the spec: `Comments::for_revision` yields every
`Revisioned` whose key set is empty or names the given revision. -/
def Comments.for_revision (c : Comments) (revision : String) : List Revisioned :=
  (c.revisioned.filter (fun p => p.1.isEmpty || p.1.contains revision)).map Prod.snd

/-- Modelled from the spec: `Comments::find_one_for_revision` extracts a
directive that may be given at most once per revision.  A unique hit is
returned; with several hits the directive is ignored (callers fall back to
their default, spec §4.5: "the `edition` directive for this revision if
unique, else config default") and the surplus hits are reported so that the
caller can emit `InvalidComment` for each. -/
def Comments.find_one_for_revision {α : Type} (c : Comments) (revision : String)
    (f : Revisioned → Option α) : Option α × List α :=
  match (c.for_revision revision).filterMap f with
  | [] => (none, [])
  | [x] => (some x, [])
  | _ :: rest => (none, rest)

/-- All `error_patterns` entries applicable to a revision, in order. -/
def Comments.errorPatternsFor (c : Comments) (revision : String) : List (Pattern × Nat) :=
  concatMap (fun r => r.error_patterns) (c.for_revision revision)

/-- All `error_matches` entries applicable to a revision, in order. -/
def Comments.errorMatchesFor (c : Comments) (revision : String) : List ErrorMatch :=
  concatMap (fun r => r.error_matches) (c.for_revision revision)

/-- The fragment of `Config` the checked functions consult, after
`fill_host_and_target` has run (so `host` and `target` are plain strings). -/
structure Config where
  mode : Mode
  target : String
  host : String
  output_conflict_handling : OutputConflictHandling

/-- Embeds `get_pointer_width` (taken 1:1 from compiletest-rs): 64 for triples that
contain `64` (not ending in `gnux32`/`gnu_ilp32`) or start with `s390x`,
16 for `avr`, else 32. -/
def get_pointer_width (triple : String) : Nat :=
  if (containsStr triple "64" && !endsWithStr triple "gnux32"
        && !endsWithStr triple "gnu_ilp32")
      || startsWithStr triple "s390x" then
    64
  else if startsWithStr triple "avr" then
    16
  else
    32

/-- Embeds `output_path`: route the golden file through a `<bits>bit.` infix when
any applicable `Revisioned` sets `stderr_per_bitwidth`. -/
def output_path (path : FsPath) (comments : Comments) (kind : String)
    (target : String) (revision : String) : FsPath :=
  if (comments.for_revision revision).any (fun r => r.stderr_per_bitwidth) then
    path.with_extension (toString (get_pointer_width target) ++ "bit." ++ kind)
  else
    path.with_extension kind

/-- Embeds `test_condition`: whether a single `Condition` holds for the config. -/
def test_condition (condition : Condition) (config : Config) : Bool :=
  match condition with
  | .bitwidth bits => decide (get_pointer_width config.target = bits)
  | .target t => containsStr config.target t
  | .host t => containsStr config.host t
  | .onHost => config.target == config.host

/-- Embeds `Config::has_asm_support`: the target contains one of the supported
architecture substrings. -/
def has_asm_support (config : Config) : Bool :=
  ["x86", "x86_64", "arm", "aarch64", "riscv32", "riscv64"].any
    (fun arch => containsStr config.target arch)

/-- Embeds `test_file_conditions`: returns whether according to the in-file
conditions, this file should be run. -/
def test_file_conditions (comments : Comments) (config : Config) (revision : String) : Bool :=
  if (concatMap (fun r => r.ignore) (comments.for_revision revision)).any
      (fun c => test_condition c config) then
    false
  else if (comments.for_revision revision).any
      (fun r => r.needs_asm_support && !has_asm_support config) then
    false
  else
    (concatMap (fun r => r.only) (comments.for_revision revision)).all
      (fun c => test_condition c config)

/-- The outcome of running one revision of one test, with the `Errored`
payload abstracted away. -/
inductive TestResult where
  | ok
  | ignored
  | filtered
  | errored
deriving DecidableEq, Repr

/-- The per-revision branch of `parse_and_test_file`: a revision whose
conditions say not to run is `Ignored`; otherwise the test run's outcome
(`outcome` stands for the result of `run_test`, which invokes an external
process) is reported. -/
def test_revision (comments : Comments) (config : Config) (revision : String)
    (outcome : TestResult) : TestResult :=
  if !test_file_conditions comments config revision then TestResult.ignored
  else outcome

/-- Remove the first element satisfying `p`; `none` when no element does.
This is the `iter().position(...)` / `remove(i)` idiom of
`check_annotations`. -/
def removeFirst {α : Type} (p : α → Bool) : List α → Option (List α)
  | [] => none
  | x :: xs => if p x then some xs else (removeFirst p xs).map (fun l => x :: l)

/-- Phase 1 of `check_annotations`: for each `error_pattern` in order, consume
the first message of the unknown-location bucket that matches it, or emit
`PatternNotFound`. -/
def phase1 : List (Pattern × Nat) → List Message → List Message × List Error
  | [], unknown => (unknown, [])
  | (pat, defLine) :: rest, unknown =>
    match removeFirst (fun m => pat.matches m.message) unknown with
    | some unknown2 => phase1 rest unknown2
    | none =>
      let r := phase1 rest unknown
      (r.1, Error.patternNotFound pat defLine :: r.2)

/-- One `error_matches` entry of phase 2 of `check_annotations`: look up the
per-line bucket at index `line`, consume the first message whose text matches
the pattern and whose level equals the expected level, or report
`PatternNotFound`. -/
def applyErrorMatch (messages : List (List Message)) (em : ErrorMatch) :
    List (List Message) × Option Error :=
  match messages[em.line]? with
  | some msgs =>
    match removeFirst
        (fun m => em.pattern.matches m.message && decide (m.level = em.level)) msgs with
    | some msgs2 => (messages.set em.line msgs2, none)
    | none => (messages, some (Error.patternNotFound em.pattern em.definition_line))
  | none => (messages, some (Error.patternNotFound em.pattern em.definition_line))

/-- Phase 2 of `check_annotations`: process each `error_matches` entry in
order, threading the per-line buckets. -/
def phase2 : List ErrorMatch → List (List Message) → List (List Message) × List Error
  | [], messages => (messages, [])
  | em :: rest, messages =>
    match applyErrorMatch messages em with
    | (messages2, none) => phase2 rest messages2
    | (messages2, some e) =>
      let r := phase2 rest messages2
      (r.1, e :: r.2)

/-- The running minimum of the levels of all `error_matches` entries,
initialized to `Error`. -/
def lowestAnnotationLevel (ems : List ErrorMatch) : Level :=
  ems.foldl (fun l em => Level.minL l em.level) Level.error

/-- The `required_annotation_level` computed by `check_annotations`: the
unique `require_annotations_for_level` directive if present, else the lowest
`error_matches` level. -/
def Comments.requiredLevelFor (c : Comments) (revision : String) : Level :=
  ((c.find_one_for_revision revision
      (fun r => r.require_annotations_for_level)).1).getD
    (lowestAnnotationLevel (c.errorMatchesFor revision))

/-- The tail of the completeness phase: emit one `ErrorsWithoutPattern` with
`path = None` when the unknown-location bucket retains a message at level
`>= required`. -/
def unknownBucketErrors (unknown1 : List Message) (required : Level) : List Error :=
  let retained := unknown1.filter (fun m => levelGe m.level required)
  if retained.isEmpty then [] else [Error.errorsWithoutPattern retained none]

/-- The `enumerate()` loop of the completeness phase: one
`ErrorsWithoutPattern` per source line whose bucket retains a message at
level `>= required`. -/
def collectLineErrors (path : FsPath) (required : Level) :
    Nat → List (List Message) → List Error
  | _, [] => []
  | i, msgs :: rest =>
    let f := msgs.filter (fun m => levelGe m.level required)
    (if f.isEmpty then [] else [Error.errorsWithoutPattern f (some (path, i))])
      ++ collectLineErrors path required (i + 1) rest

/-- Whether any `error_pattern` or `error_matches` entry existed
(`seen_error_match` in the source). -/
def seenErrorMatch (eps : List (Pattern × Nat)) (ems : List ErrorMatch) : Bool :=
  !eps.isEmpty || !ems.isEmpty

/-- The final `match (mode, seen_error_match)` of `check_annotations`. -/
def modeCheckErrors (mode : Mode) (seen : Bool) : List Error :=
  match mode, seen with
  | Mode.pass, true => [Error.patternFoundInPassTest]
  | Mode.panic, true => [Error.patternFoundInPassTest]
  | Mode.fail true, false => [Error.noPatternsFound]
  | _, _ => []

/-- Embeds `Mode`'s expected exit code (`None` for `Yolo`, which accepts any). -/
def Mode.expected_code : Mode → Option Int
  | Mode.pass => some 0
  | Mode.panic => some 101
  | Mode.fail _ => some 1
  | Mode.yolo => none

/-- Embeds `Mode::ok`: empty error list when the exit code matches the expectation,
a single `ExitStatus` error otherwise; `Yolo` accepts everything. -/
def Mode.ok (mode : Mode) (status : Option Int) : List Error :=
  match mode.expected_code with
  | none => []
  | some expected =>
    if status = some expected then []
    else [Error.exitStatus mode status expected]

/-- Embeds `Mode::maybe_override`: the per-revision mode directive when uniquely
present, else the config mode; surplus directives become `InvalidComment`
errors (returned alongside). -/
def Mode.maybe_override (mode : Mode) (comments : Comments) (revision : String) :
    Mode × List Error :=
  let fo := comments.find_one_for_revision revision (fun r => r.mode)
  ((fo.1.map Prod.fst).getD mode,
   fo.2.map (fun p => Error.invalidComment "multiple mode changes found" p.2))

/-- Embeds `check_annotations` (`src/lib.rs` lines 1147–1261): file-wide patterns,
line-anchored patterns, completeness of annotations, and the final mode
check, with all emitted errors concatenated in source order. -/
def check_annotations (messages : List (List Message))
    (messages_from_unknown_file_or_line : List Message) (path : FsPath)
    (config : Config) (revision : String) (comments : Comments) : List Error :=
  let eps := comments.errorPatternsFor revision
  let ems := comments.errorMatchesFor revision
  let r1 := phase1 eps messages_from_unknown_file_or_line
  let r2 := phase2 ems messages
  let req := comments.find_one_for_revision revision
    (fun r => r.require_annotations_for_level)
  let required := req.1.getD (lowestAnnotationLevel ems)
  let mo := Mode.maybe_override config.mode comments revision
  r1.2 ++ r2.2
    ++ req.2.map (fun _ =>
        Error.invalidComment
          "`require_annotations_for_level` specified twice for same revision" 0)
    ++ unknownBucketErrors r1.1 required
    ++ collectLineErrors path required 0 r2.1
    ++ mo.2
    ++ modeCheckErrors mo.1 (seenErrorMatch eps ems)

/-- The filesystem fragment the golden-file comparator touches: a finite map
from paths to byte contents, as an association list. -/
def FileSystem : Type := List (FsPath × List Nat)

/-- Embeds `std::fs::read`, as an `Option`. -/
def FileSystem.read : FileSystem → FsPath → Option (List Nat)
  | [], _ => none
  | (q, c) :: rest, p => if q = p then some c else FileSystem.read rest p

/-- Embeds `std::fs::remove_file` (total: removing a missing file is a no-op, the
source ignores the result with `let _`). -/
def FileSystem.removeFile : FileSystem → FsPath → FileSystem
  | [], _ => []
  | (q, c) :: rest, p =>
    if q = p then FileSystem.removeFile rest p
    else (q, c) :: FileSystem.removeFile rest p

/-- Embeds `std::fs::write`: overwrite the file's contents. -/
def FileSystem.write (fs : FileSystem) (p : FsPath) (content : List Nat) : FileSystem :=
  (p, content) :: fs.removeFile p

/-- Embeds `normalize` of `src/lib.rs` (the Lean name avoids Mathlib's
`normalize`): prepend the `$DIR` path filter to the config filters, first
apply the build-time `RUSTC_LIB_PATH → RUSTLIB` replacement, then every
config filter in order, then every per-revision `normalize_stderr` filter in
order.  `rustc_lib_path` stands for the build-time `option_env!` constant. -/
def normalizeBytes (path : FsPath) (text : List Nat) (filters : List (Match × List Nat))
    (comments : Comments) (revision : String)
    (rustc_lib_path : Option (List Nat)) : List Nat :=
  let path_filter : Match × List Nat := (Match.fromPathString path.dir, strBytes "$DIR")
  let text1 :=
    match rustc_lib_path with
    | some lib_path => replaceAllExact lib_path (strBytes "RUSTLIB") text
    | none => text
  let text2 := applyFilters (filters ++ [path_filter]) text1
  applyFilters
    (concatMap (fun r => r.normalize_stderr) (comments.for_revision revision)) text2

/-- Embeds `check_output`: normalize the raw output, route it to the golden path,
then bless, compare, or ignore according to the conflict-handling policy.
Returns the new filesystem, the emitted errors, and the golden path. -/
def check_output (fs : FileSystem) (output : List Nat) (path : FsPath)
    (kind : String) (filters : List (Match × List Nat)) (config : Config)
    (comments : Comments) (revision : String)
    (rustc_lib_path : Option (List Nat)) : FileSystem × List Error × FsPath :=
  let normalized := normalizeBytes path output filters comments revision rustc_lib_path
  let opath := output_path path comments kind config.target revision
  match config.output_conflict_handling with
  | OutputConflictHandling.bless =>
    if normalized.isEmpty then (fs.removeFile opath, [], opath)
    else (fs.write opath normalized, [], opath)
  | OutputConflictHandling.error =>
    let expected := (fs.read opath).getD []
    if normalized = expected then (fs, [], opath)
    else (fs, [Error.outputDiffers opath normalized expected], opath)
  | OutputConflictHandling.ignore => (fs, [], opath)

/-- The part of `run_test` that follows the main compiler invocation
(`src/lib.rs` lines 948–1011), with the process output passed in as data:
the status check through `maybe_override`, then the early`-return` branch for
exit code 101 under a `Config.mode` that is neither `Panic` nor `Yolo`.
`later_errors` and `later_rendered` stand for whatever the skipped tail
(golden-file comparison, annotation checking, rustfix) would contribute; the
final `Bool` is `true` exactly when the early return fired. -/
def run_test_after_output (config : Config) (comments : Comments)
    (revision : String) (status : Option Int)
    (process_stderr process_stdout : String) (later_errors : List Error)
    (later_rendered : List Nat) : List Error × List Nat × Bool :=
  let mo := Mode.maybe_override config.mode comments revision
  let errors := mo.2 ++ Mode.ok mo.1 status
  if status = some 101 ∧ config.mode ≠ Mode.panic ∧ config.mode ≠ Mode.yolo then
    (errors ++ [Error.bug
        ("test panicked: stderr:\n" ++ process_stderr
          ++ "\nstdout:\n" ++ process_stdout)], [], true)
  else
    (errors ++ later_errors, later_rendered, false)

/-- A directory tree, as the producer thread sees it: `read_dir` yields the
entries of a directory, `is_dir` distinguishes the variants. -/
inductive FsEntry where
  | file (name : String)
  | dir (name : String) (entries : List FsEntry)

/-- Embeds `Path::file_name` of an entry. -/
def FsEntry.name : FsEntry → String
  | .file n => n
  | .dir n _ => n

mutual
/-- Size of a tree (termination measure for the walks; the derived `sizeOf`
of this nested inductive is not executable). -/
def entrySize : FsEntry → Nat
  | .file _ => 1
  | .dir _ entries => 1 + entriesSize entries + entries.length

/-- Total size of a list of trees. -/
def entriesSize : List FsEntry → Nat
  | [] => 0
  | e :: es => entrySize e + entriesSize es
end

/-- Insert an entry into a name-sorted list (helper of `sortEntries`). -/
def insertSorted (e : FsEntry) : List FsEntry → List FsEntry
  | [] => [e]
  | x :: xs => if e.name ≤ x.name then e :: x :: xs else x :: insertSorted e xs

/-- Embeds `entries.sort_by_key(|e| e.file_name())`: stable ascending sort of a
directory's entries by file name. -/
def sortEntries : List FsEntry → List FsEntry
  | [] => []
  | x :: xs => insertSorted x (sortEntries xs)

/-- Total size of all trees still in the producer's work queue (termination
measure for `producer`). -/
def queueSize : List (List String × FsEntry) → Nat
  | [] => 0
  | pe :: rest => entrySize pe.2 + queueSize rest

/-- The producer thread of `run_tests_generic` (`src/lib.rs` lines 355–381):
a `VecDeque` work list popped from the front; a directory named `auxiliary`
is skipped, any other directory has its entries sorted by file name and
pushed to the back, and a non-directory path is sent iff `file_filter`
accepts it.  The returned list is the sequence of paths sent on the work
channel.  Each queue element carries its full path alongside its tree. -/
def producer (file_filter : List String → Bool) :
    List (List String × FsEntry) → List (List String)
  | [] => []
  | (p, FsEntry.dir dname entries) :: rest =>
    if dname = "auxiliary" then producer file_filter rest
    else
      producer file_filter
        (rest ++ (sortEntries entries).map (fun e => (p ++ [e.name], e)))
  | (p, FsEntry.file _) :: rest =>
    if file_filter p then p :: producer file_filter rest
    else producer file_filter rest
termination_by todo => queueSize todo
decreasing_by
· simp only [queueSize, entrySize]
  omega
· have hins : ∀ (e : FsEntry) (l : List FsEntry),
      entriesSize (insertSorted e l) = entrySize e + entriesSize l ∧
        (insertSorted e l).length = l.length + 1 := by
    intro e l
    induction l with
    | nil => simp [insertSorted, entriesSize]
    | cons x xs ih =>
      simp only [insertSorted]
      split
      · simp [entriesSize]
      · simp only [entriesSize, List.length_cons, ih.1, ih.2]
        exact ⟨by omega, trivial⟩
  have hsort : ∀ (l : List FsEntry),
      entriesSize (sortEntries l) = entriesSize l ∧
        (sortEntries l).length = l.length := by
    intro l
    induction l with
    | nil => simp [sortEntries]
    | cons x xs ih =>
      simp only [sortEntries]
      refine ⟨?_, ?_⟩
      · rw [(hins x (sortEntries xs)).1, ih.1]
        simp only [entriesSize]
      · rw [(hins x (sortEntries xs)).2, ih.2]
        simp only [List.length_cons]
  have happ : ∀ (a b : List (List String × FsEntry)),
      queueSize (a ++ b) = queueSize a + queueSize b := by
    intro a b
    induction a with
    | nil => simp [queueSize]
    | cons x xs ih =>
      simp only [List.cons_append, queueSize, List.append_eq]
      omega
  have hmap : ∀ (q : List String) (es : List FsEntry),
      queueSize (es.map (fun e => (q ++ [e.name], e))) = entriesSize es := by
    intro q es
    induction es with
    | nil => simp [queueSize, entriesSize]
    | cons x xs ih => simp [queueSize, entriesSize, ih]
  simp only [queueSize, entrySize, happ, hmap, (hsort entries).1]
  omega
· simp only [queueSize, entrySize]
  omega
· simp only [queueSize, entrySize]
  omega

mutual
/-- Modelled from the spec: the traversal §4.7 describes — a depth-first
walk.  `dfsSends` enumerates, for one tree, the full paths such a walk sends:
nothing for a pruned `auxiliary` directory, the children of any other
directory in ascending file-name order each fully before the next, and a
file's path iff `file_filter` accepts it. -/
def dfsSends (file_filter : List String → Bool) :
    List String → FsEntry → List (List String)
  | p, FsEntry.file _ => if file_filter p then [p] else []
  | p, FsEntry.dir dname entries =>
    if dname = "auxiliary" then []
    else dfsList file_filter p (sortEntries entries)
termination_by _ e => entrySize e
decreasing_by
· have hins : ∀ (e : FsEntry) (l : List FsEntry),
      entriesSize (insertSorted e l) = entrySize e + entriesSize l ∧
        (insertSorted e l).length = l.length + 1 := by
    intro e l
    induction l with
    | nil => simp [insertSorted, entriesSize]
    | cons x xs ih =>
      simp only [insertSorted]
      split
      · simp [entriesSize]
      · simp only [entriesSize, List.length_cons, ih.1, ih.2]
        exact ⟨by omega, trivial⟩
  have hsort : ∀ (l : List FsEntry),
      entriesSize (sortEntries l) = entriesSize l ∧
        (sortEntries l).length = l.length := by
    intro l
    induction l with
    | nil => simp [sortEntries]
    | cons x xs ih =>
      simp only [sortEntries]
      refine ⟨?_, ?_⟩
      · rw [(hins x (sortEntries xs)).1, ih.1]
        simp only [entriesSize]
      · rw [(hins x (sortEntries xs)).2, ih.2]
        simp only [List.length_cons]
  simp only [entrySize, (hsort entries).1, (hsort entries).2]
  omega

/-- Depth-first enumeration of a list of sibling trees under a common parent
path (helper of `dfsSends`). -/
def dfsList (file_filter : List String → Bool) :
    List String → List FsEntry → List (List String)
  | _, [] => []
  | p, e :: es =>
    dfsSends file_filter (p ++ [e.name]) e ++ dfsList file_filter p es
termination_by _ es => entriesSize es + es.length
decreasing_by
· simp only [entriesSize, List.length_cons]
  omega
· simp only [entriesSize, List.length_cons]
  have : 0 ≤ entrySize e := Nat.zero_le _
  omega
end

/-- Depth-first enumeration of a whole work queue: each queued tree in turn,
fully, in queue order. -/
def dfsQueueSends (file_filter : List String → Bool) :
    List (List String × FsEntry) → List (List String)
  | [] => []
  | pe :: rest => dfsSends file_filter pe.1 pe.2 ++ dfsQueueSends file_filter rest

/-- A `Revisioned` record with every directive absent (used to build small
concrete `Comments` values). -/
def emptyRevisioned : Revisioned :=
  { ignore := []
    only := []
    stderr_per_bitwidth := false
    needs_asm_support := false
    compile_flags := []
    env_vars := []
    normalize_stderr := []
    error_patterns := []
    error_matches := []
    require_annotations_for_level := none
    run_rustfix := false
    aux_builds := []
    edition := none
    mode := none }

/-! ## Helper lemmas -/

theorem removeFirst_eq_none {α : Type} (p : α → Bool) (l : List α)
    (h : ∀ x ∈ l, p x = false) : removeFirst p l = none := by
  induction l with
  | nil => rfl
  | cons x xs ih =>
    have hx := h x (by simp)
    rw [removeFirst, if_neg (by simp [hx]), ih (fun y hy => h y (by simp [hy]))]
    rfl

theorem removeFirst_split {α : Type} (p : α → Bool) (s : List α) (m : α)
    (t : List α) (hm : p m = true) (hs : ∀ x ∈ s, p x = false) :
    removeFirst p (s ++ m :: t) = some (s ++ t) := by
  induction s with
  | nil => simp [removeFirst, hm]
  | cons x xs ih =>
    have hx := hs x (by simp)
    rw [List.cons_append, removeFirst, if_neg (by simp [hx]),
      ih (fun y hy => hs y (by simp [hy]))]
    rfl

theorem phase1_errors_shape (eps : List (Pattern × Nat)) :
    ∀ (unknown : List Message), ∀ e ∈ (phase1 eps unknown).2,
      ∃ pat d, e = Error.patternNotFound pat d := by
  induction eps with
  | nil =>
    intro unknown e he
    simp [phase1] at he
  | cons ep rest ih =>
    intro unknown e he
    obtain ⟨pat, defLine⟩ := ep
    cases hrm : removeFirst (fun m => pat.matches m.message) unknown with
    | none =>
      simp only [phase1, hrm] at he
      rcases List.mem_cons.mp he with he | he
      · exact ⟨pat, defLine, he⟩
      · exact ih unknown e he
    | some unknown2 =>
      simp only [phase1, hrm] at he
      exact ih unknown2 e he

theorem applyErrorMatch_shape (messages : List (List Message)) (em : ErrorMatch)
    (e : Error) (h : (applyErrorMatch messages em).2 = some e) :
    e = Error.patternNotFound em.pattern em.definition_line := by
  cases hget : messages[em.line]? with
  | none =>
    simp only [applyErrorMatch, hget, Option.some.injEq] at h
    exact h.symm
  | some msgs =>
    cases hrm : removeFirst
        (fun m => em.pattern.matches m.message && decide (m.level = em.level)) msgs with
    | none =>
      simp only [applyErrorMatch, hget, hrm, Option.some.injEq] at h
      exact h.symm
    | some msgs2 =>
      simp only [applyErrorMatch, hget, hrm] at h
      exact absurd h (by simp)

theorem phase2_cons (em : ErrorMatch) (rest : List ErrorMatch)
    (messages : List (List Message)) :
    phase2 (em :: rest) messages =
      ((phase2 rest (applyErrorMatch messages em).1).1,
        ((applyErrorMatch messages em).2).toList
          ++ (phase2 rest (applyErrorMatch messages em).1).2) := by
  cases ha : applyErrorMatch messages em with
  | mk m2 eo =>
    cases eo with
    | none => simp [phase2, ha]
    | some e2 => simp [phase2, ha]

theorem phase2_errors_shape (ems : List ErrorMatch) :
    ∀ (messages : List (List Message)), ∀ e ∈ (phase2 ems messages).2,
      ∃ pat d, e = Error.patternNotFound pat d := by
  induction ems with
  | nil =>
    intro messages e he
    simp [phase2] at he
  | cons em rest ih =>
    intro messages e he
    rw [phase2_cons] at he
    simp only [List.mem_append] at he
    rcases he with he | he
    · cases heo : (applyErrorMatch messages em).2 with
      | none => rw [heo] at he; simp at he
      | some e2 =>
        rw [heo] at he
        simp only [Option.toList_some, List.mem_singleton] at he
        exact ⟨em.pattern, em.definition_line,
          he.trans (applyErrorMatch_shape messages em e2 heo)⟩
    · exact ih _ e he

theorem collectLineErrors_shape (path : FsPath) (req : Level) :
    ∀ (L : List (List Message)) (i : Nat), ∀ e ∈ collectLineErrors path req i L,
      ∃ msgs ln, e = Error.errorsWithoutPattern msgs (some (path, ln)) ∧ msgs ≠ []
        ∧ ∀ m ∈ msgs, levelGe m.level req = true := by
  intro L
  induction L with
  | nil =>
    intro i e he
    simp [collectLineErrors] at he
  | cons b rest ih =>
    intro i e he
    simp only [collectLineErrors, List.mem_append] at he
    rcases he with he | he
    · cases hf : (b.filter (fun m => levelGe m.level req)).isEmpty with
      | true => rw [hf] at he; simp at he
      | false =>
        rw [hf] at he
        simp only [Bool.false_eq_true, if_false, List.mem_singleton] at he
        subst he
        refine ⟨_, i, rfl, ?_, ?_⟩
        · intro hnil
          rw [hnil] at hf
          simp at hf
        · intro m hm
          exact (List.mem_filter.mp hm).2
    · exact ih (i + 1) e he

theorem mem_collectLineErrors (path : FsPath) (req : Level) (msgs : List Message)
    (line : Nat) :
    ∀ (L : List (List Message)) (i : Nat),
      (Error.errorsWithoutPattern msgs (some (path, line)) ∈ collectLineErrors path req i L)
        ↔ (i ≤ line ∧ line - i < L.length
            ∧ msgs = ((L[line - i]?).getD []).filter (fun m => levelGe m.level req)
            ∧ msgs ≠ []) := by
  intro L
  induction L with
  | nil =>
    intro i
    simp [collectLineErrors]
  | cons b rest ih =>
    intro i
    simp only [collectLineErrors, List.mem_append]
    constructor
    · rintro (he | he)
      · cases hf : (b.filter (fun m => levelGe m.level req)).isEmpty with
        | true => rw [hf] at he; simp at he
        | false =>
          rw [hf] at he
          simp only [Bool.false_eq_true, if_false, List.mem_singleton,
            Error.errorsWithoutPattern.injEq, Option.some.injEq, Prod.mk.injEq] at he
          obtain ⟨hmsgs, -, hline⟩ := he
          subst hline
          refine ⟨le_rfl, by simp, by simpa using hmsgs, ?_⟩
          intro hnil
          rw [← hmsgs, hnil] at hf
          simp at hf
      · obtain ⟨h1, h2, h3, h4⟩ := (ih (i + 1)).mp he
        refine ⟨by omega, by simp only [List.length_cons]; omega, ?_, h4⟩
        have hli : line - i = (line - (i + 1)) + 1 := by omega
        rw [hli]
        simpa using h3
    · rintro ⟨h1, h2, h3, h4⟩
      rcases Nat.eq_or_lt_of_le h1 with heq | hlt
      · subst heq
        left
        simp only [Nat.sub_self, List.getElem?_cons_zero, Option.getD_some] at h3
        have hne : (b.filter (fun m => levelGe m.level req)).isEmpty = false := by
          cases hf : (b.filter (fun m => levelGe m.level req)).isEmpty with
          | false => rfl
          | true => exact absurd (h3.trans (List.isEmpty_iff.mp hf)) h4
        rw [hne]
        simp [h3]
      · right
        refine (ih (i + 1)).mpr ⟨by omega, ?_, ?_, h4⟩
        · simp only [List.length_cons] at h2
          omega
        · have hli : line - i = (line - (i + 1)) + 1 := by omega
          rw [hli] at h3
          simpa using h3

theorem unknownBucketErrors_shape (u : List Message) (req : Level) :
    ∀ e ∈ unknownBucketErrors u req,
      e = Error.errorsWithoutPattern (u.filter (fun m => levelGe m.level req)) none
        ∧ u.filter (fun m => levelGe m.level req) ≠ [] := by
  intro e he
  simp only [unknownBucketErrors] at he
  cases hf : (u.filter (fun m => levelGe m.level req)).isEmpty with
  | true => rw [hf] at he; simp at he
  | false =>
    rw [hf] at he
    simp only [Bool.false_eq_true, if_false, List.mem_singleton] at he
    refine ⟨he, ?_⟩
    intro hnil
    rw [hnil] at hf
    simp at hf

theorem mem_unknownBucketErrors (u : List Message) (req : Level) :
    Error.errorsWithoutPattern (u.filter (fun m => levelGe m.level req)) none
        ∈ unknownBucketErrors u req
      ↔ u.filter (fun m => levelGe m.level req) ≠ [] := by
  constructor
  · intro he
    exact (unknownBucketErrors_shape u req _ he).2
  · intro hne
    simp only [unknownBucketErrors]
    rw [if_neg (by simpa [List.isEmpty_iff] using hne)]
    simp

theorem mem_modeCheckErrors_pfipt (m : Mode) (s : Bool) :
    Error.patternFoundInPassTest ∈ modeCheckErrors m s
      ↔ ((m = Mode.pass ∨ m = Mode.panic) ∧ s = true) := by
  cases m with
  | pass => cases s <;> simp [modeCheckErrors]
  | panic => cases s <;> simp [modeCheckErrors]
  | fail b => cases b <;> cases s <;> simp [modeCheckErrors]
  | yolo => cases s <;> simp [modeCheckErrors]

theorem mem_modeCheckErrors_npf (m : Mode) (s : Bool) :
    Error.noPatternsFound ∈ modeCheckErrors m s
      ↔ (m = Mode.fail true ∧ s = false) := by
  cases m with
  | pass => cases s <;> simp [modeCheckErrors]
  | panic => cases s <;> simp [modeCheckErrors]
  | fail b => cases b <;> cases s <;> simp [modeCheckErrors]
  | yolo => cases s <;> simp [modeCheckErrors]

theorem modeCheckErrors_shape (m : Mode) (s : Bool) :
    ∀ e ∈ modeCheckErrors m s,
      e = Error.patternFoundInPassTest ∨ e = Error.noPatternsFound := by
  intro e he
  cases m with
  | pass => cases s <;> simp_all [modeCheckErrors]
  | panic => cases s <;> simp_all [modeCheckErrors]
  | fail b => cases b <;> cases s <;> simp_all [modeCheckErrors]
  | yolo => cases s <;> simp_all [modeCheckErrors]

theorem mem_check_annotations (e : Error) (messages : List (List Message))
    (unknown : List Message) (path : FsPath) (config : Config) (revision : String)
    (comments : Comments) :
    e ∈ check_annotations messages unknown path config revision comments ↔
      (e ∈ (phase1 (comments.errorPatternsFor revision) unknown).2
        ∨ e ∈ (phase2 (comments.errorMatchesFor revision) messages).2
        ∨ e ∈ ((comments.find_one_for_revision revision
            (fun r => r.require_annotations_for_level)).2.map (fun _ =>
              Error.invalidComment
                "`require_annotations_for_level` specified twice for same revision" 0))
        ∨ e ∈ unknownBucketErrors
            (phase1 (comments.errorPatternsFor revision) unknown).1
            (comments.requiredLevelFor revision)
        ∨ e ∈ collectLineErrors path (comments.requiredLevelFor revision) 0
            (phase2 (comments.errorMatchesFor revision) messages).1
        ∨ e ∈ (Mode.maybe_override config.mode comments revision).2
        ∨ e ∈ modeCheckErrors (Mode.maybe_override config.mode comments revision).1
            (seenErrorMatch (comments.errorPatternsFor revision)
              (comments.errorMatchesFor revision))) := by
  simp only [check_annotations, Comments.requiredLevelFor, List.mem_append, or_assoc]

theorem find_one_eq_single {α : Type} (c : Comments) (revision : String)
    (f : Revisioned → Option α) (x : α)
    (h : (c.for_revision revision).filterMap f = [x]) :
    c.find_one_for_revision revision f = (some x, []) := by
  unfold Comments.find_one_for_revision
  rw [h]

theorem find_one_eq_nil {α : Type} (c : Comments) (revision : String)
    (f : Revisioned → Option α)
    (h : (c.for_revision revision).filterMap f = []) :
    c.find_one_for_revision revision f = (none, []) := by
  unfold Comments.find_one_for_revision
  rw [h]

theorem mem_concatMap {α β : Type} (f : α → List β) (b : β) :
    ∀ (l : List α), b ∈ concatMap f l ↔ ∃ a ∈ l, b ∈ f a := by
  intro l
  induction l with
  | nil => simp [concatMap]
  | cons x xs ih => simp [concatMap, ih]

/-! ## Claim theorems -/

/-- Claim C4: for every exit status, `Mode::ok` returns no error exactly when
the status code equals the mode's expected code (`Pass` expects 0, `Panic`
expects 101, `Fail` expects 1) and returns a single
`ExitStatus{mode,status,expected}` error otherwise; under `Yolo` it returns
no error for every status. -/
theorem c4_exit_status_check (mode : Mode) (status : Option Int) :
    (Mode.expected_code Mode.pass = some 0
      ∧ Mode.expected_code Mode.panic = some 101
      ∧ (∀ b, Mode.expected_code (Mode.fail b) = some 1)
      ∧ Mode.expected_code Mode.yolo = none)
    ∧ Mode.ok Mode.yolo status = []
    ∧ (∀ e : Int, mode.expected_code = some e →
        ((Mode.ok mode status = [] ↔ status = some e)
          ∧ (status ≠ some e →
              Mode.ok mode status = [Error.exitStatus mode status e]))) := by
  refine ⟨⟨rfl, rfl, fun b => rfl, rfl⟩, rfl, ?_⟩
  intro e he
  by_cases hst : status = some e <;> simp [Mode.ok, he, hst]

/-- Witness for C4: `Pass` expects exit code 0, and `Mode::ok` accepts it. -/
theorem c4_witness :
    Mode.expected_code Mode.pass = some 0 ∧ Mode.ok Mode.pass (some 0) = [] :=
  ⟨rfl, ((c4_exit_status_check Mode.pass (some 0)).2.2 0 rfl).1.mpr rfl⟩

/-- Claim C2: for every `error_matches` entry, `check_annotations` (through
`applyErrorMatch`, folded in order by `phase2`) searches the per-line bucket
at index `line` for the first message whose level equals `level` and whose
text matches the pattern; if one exists it is removed from the bucket and no
error is emitted for this entry, otherwise `PatternNotFound` with that
pattern and `definition_line` is emitted. -/
theorem c2_line_anchored_matching (messages : List (List Message)) (em : ErrorMatch) :
    ((∀ m ∈ (messages[em.line]?).getD [],
        (em.pattern.matches m.message && decide (m.level = em.level)) = false) →
      applyErrorMatch messages em
        = (messages, some (Error.patternNotFound em.pattern em.definition_line)))
    ∧ (∀ s m t, (messages[em.line]?).getD [] = s ++ m :: t →
        (em.pattern.matches m.message && decide (m.level = em.level)) = true →
        (∀ x ∈ s, (em.pattern.matches x.message && decide (x.level = em.level)) = false) →
        applyErrorMatch messages em = (messages.set em.line (s ++ t), none))
    ∧ (∀ rest, phase2 (em :: rest) messages
        = ((phase2 rest (applyErrorMatch messages em).1).1,
            ((applyErrorMatch messages em).2).toList
              ++ (phase2 rest (applyErrorMatch messages em).1).2)) := by
  refine ⟨?_, ?_, fun rest => phase2_cons em rest messages⟩
  · intro hall
    cases hget : messages[em.line]? with
    | none => simp [applyErrorMatch, hget]
    | some msgs =>
      have hrm : removeFirst
          (fun m => em.pattern.matches m.message && decide (m.level = em.level)) msgs
            = none := by
        apply removeFirst_eq_none
        intro x hx
        exact hall x (by rw [hget]; exact hx)
      simp [applyErrorMatch, hget, hrm]
  · intro s m t hb hm hs
    have hget : messages[em.line]? = some (s ++ m :: t) := by
      cases hg : messages[em.line]? with
      | none => rw [hg] at hb; simp at hb
      | some msgs =>
        rw [hg] at hb
        simp only [Option.getD_some] at hb
        rw [hb]
    have hrm := removeFirst_split
      (fun m => em.pattern.matches m.message && decide (m.level = em.level)) s m t hm hs
    simp [applyErrorMatch, hget, hrm]

/-- Witness for C2: in a bucket with one level-mismatched and one matching
message, the matching one is consumed and no error is emitted. -/
theorem c2_witness :
    ((([[⟨Level.warn, "foo"⟩, ⟨Level.error, "xfoo"⟩]] : List (List Message))[
        (⟨Pattern.subString "foo", 7, 0, Level.error⟩ : ErrorMatch).line]?).getD []
      = [⟨Level.warn, "foo"⟩] ++ ⟨Level.error, "xfoo"⟩ :: [])
    ∧ applyErrorMatch [[⟨Level.warn, "foo"⟩, ⟨Level.error, "xfoo"⟩]]
        ⟨Pattern.subString "foo", 7, 0, Level.error⟩
      = ([[⟨Level.warn, "foo"⟩]], none) := by
  refine ⟨rfl, ?_⟩
  have h := (c2_line_anchored_matching [[⟨Level.warn, "foo"⟩, ⟨Level.error, "xfoo"⟩]]
      ⟨Pattern.subString "foo", 7, 0, Level.error⟩).2.1
    [⟨Level.warn, "foo"⟩] ⟨Level.error, "xfoo"⟩ [] rfl (by decide) (by decide)
  exact h.trans rfl

/-- Claim C8: whenever some `ignore` condition of a `Revisioned` applicable
to the revision matches the config, `test_file_conditions` returns `false`,
and the revision's result is `Ignored` regardless of the run outcome. -/
theorem c8_ignore_monotonicity (comments : Comments) (config : Config)
    (revision : String)
    (h : ∃ c ∈ concatMap (fun r => r.ignore) (comments.for_revision revision),
        test_condition c config = true) :
    test_file_conditions comments config revision = false
      ∧ ∀ outcome : TestResult,
          test_revision comments config revision outcome = TestResult.ignored := by
  have hany : (concatMap (fun r => r.ignore) (comments.for_revision revision)).any
      (fun c => test_condition c config) = true := List.any_eq_true.mpr h
  have hfc : test_file_conditions comments config revision = false := by
    unfold test_file_conditions
    rw [if_pos hany]
  exact ⟨hfc, fun outcome => by simp [test_revision, hfc]⟩

/-- Witness for C8: an `ignore-on-host` directive on a config whose target
equals its host forces `Ignored` even for an erroring run. -/
theorem c8_witness :
    (∃ c ∈ concatMap (fun r => r.ignore)
        ((⟨none, [([], { emptyRevisioned with ignore := [Condition.onHost] })]⟩ :
          Comments).for_revision ""),
      test_condition c ⟨Mode.fail true, "t", "t", OutputConflictHandling.error⟩ = true)
    ∧ test_revision ⟨none, [([], { emptyRevisioned with ignore := [Condition.onHost] })]⟩
        ⟨Mode.fail true, "t", "t", OutputConflictHandling.error⟩ "" TestResult.errored
      = TestResult.ignored := by
  refine ⟨by decide, ?_⟩
  exact (c8_ignore_monotonicity
    ⟨none, [([], { emptyRevisioned with ignore := [Condition.onHost] })]⟩
    ⟨Mode.fail true, "t", "t", OutputConflictHandling.error⟩ "" (by decide)).2
    TestResult.errored

/-- Claim C10: when the process exits with code 101 and `Config.mode` is
neither `Panic` nor `Yolo`, `run_test` pushes an `Error::Bug` carrying the
process's stderr and stdout and returns immediately with empty rendered
output, skipping the golden-file, annotation, and rustfix phases (the result
does not depend on `later_errors`/`later_rendered`); the branch consults
`Config.mode` only, so it fires under any per-file mode override. -/
theorem c10_early_exit_on_101 (config : Config) (comments : Comments)
    (revision : String) (process_stderr process_stdout : String)
    (later_errors : List Error) (later_rendered : List Nat)
    (h1 : config.mode ≠ Mode.panic) (h2 : config.mode ≠ Mode.yolo) :
    run_test_after_output config comments revision (some 101)
        process_stderr process_stdout later_errors later_rendered
      = ((Mode.maybe_override config.mode comments revision).2
          ++ Mode.ok (Mode.maybe_override config.mode comments revision).1 (some 101)
          ++ [Error.bug ("test panicked: stderr:\n" ++ process_stderr
              ++ "\nstdout:\n" ++ process_stdout)], [], true) := by
  simp [run_test_after_output, h1, h2]

/-- Witness for C10: a `Fail`-mode config whose test file overrides the mode
to `Panic` still takes the early-exit branch on code 101 (no `ExitStatus`
error, but the `Bug` is pushed and the tail contributions are dropped). -/
theorem c10_witness :
    (⟨Mode.fail true, "t", "t", OutputConflictHandling.error⟩ : Config).mode ≠ Mode.panic
    ∧ run_test_after_output ⟨Mode.fail true, "t", "t", OutputConflictHandling.error⟩
        ⟨none, [([], { emptyRevisioned with mode := some (Mode.panic, 5) })]⟩
        "" (some 101) "A" "B" [Error.noPatternsFound] [1, 2]
      = ([Error.bug "test panicked: stderr:\nA\nstdout:\nB"], [], true) := by
  refine ⟨by decide, ?_⟩
  rw [c10_early_exit_on_101 _ _ _ _ _ _ _ (by decide) (by decide)]
  rfl

/-- Claim C1: the required annotation level equals
`require_annotations_for_level` when that directive is (uniquely) set,
otherwise the minimum level among all `error_matches` entries (initialized to
`Error` when there are none); after pattern matching only messages with level
`>= required` are retained, and `check_annotations` emits
`ErrorsWithoutPattern` with `path = None` exactly when the unknown-location
bucket still holds such a message, and one `ErrorsWithoutPattern` with
`path = Some((file, line))` for every source line whose bucket still holds
such a message. -/
theorem c1_required_level_and_completeness (messages : List (List Message))
    (unknown : List Message) (path : FsPath) (config : Config) (revision : String)
    (comments : Comments) :
    (∀ l, (comments.for_revision revision).filterMap
        (fun r => r.require_annotations_for_level) = [l] →
      comments.requiredLevelFor revision = l)
    ∧ ((comments.for_revision revision).filterMap
        (fun r => r.require_annotations_for_level) = [] →
      comments.requiredLevelFor revision
        = lowestAnnotationLevel (comments.errorMatchesFor revision))
    ∧ lowestAnnotationLevel [] = Level.error
    ∧ (Error.errorsWithoutPattern
          (((phase1 (comments.errorPatternsFor revision) unknown).1).filter
            (fun m => levelGe m.level (comments.requiredLevelFor revision))) none
        ∈ check_annotations messages unknown path config revision comments
        ↔ ((phase1 (comments.errorPatternsFor revision) unknown).1).filter
            (fun m => levelGe m.level (comments.requiredLevelFor revision)) ≠ [])
    ∧ (∀ line : Nat,
        Error.errorsWithoutPattern
            ((((phase2 (comments.errorMatchesFor revision) messages).1)[line]?.getD
                []).filter
              (fun m => levelGe m.level (comments.requiredLevelFor revision)))
            (some (path, line))
          ∈ check_annotations messages unknown path config revision comments
        ↔ (((phase2 (comments.errorMatchesFor revision) messages).1)[line]?.getD
              []).filter
            (fun m => levelGe m.level (comments.requiredLevelFor revision)) ≠ [])
    ∧ (∀ msgs pth, Error.errorsWithoutPattern msgs pth
          ∈ check_annotations messages unknown path config revision comments →
        ∀ m ∈ msgs, levelGe m.level (comments.requiredLevelFor revision) = true) := by
  refine ⟨?_, ?_, rfl, ?_, ?_, ?_⟩
  · intro l h
    unfold Comments.requiredLevelFor
    rw [find_one_eq_single _ _ _ _ h]
    rfl
  · intro h
    unfold Comments.requiredLevelFor
    rw [find_one_eq_nil _ _ _ h]
    rfl
  · rw [mem_check_annotations]
    constructor
    · rintro (h | h | h | h | h | h | h)
      · obtain ⟨pat, d, heq⟩ := phase1_errors_shape _ _ _ h
        exact Error.noConfusion heq
      · obtain ⟨pat, d, heq⟩ := phase2_errors_shape _ _ _ h
        exact Error.noConfusion heq
      · simp only [Mode.maybe_override, List.mem_map] at h
        obtain ⟨a, -, heq⟩ := h
        exact Error.noConfusion heq
      · exact (unknownBucketErrors_shape _ _ _ h).2
      · obtain ⟨ms, ln, heq, -, -⟩ := collectLineErrors_shape _ _ _ _ _ h
        injection heq with h1 h2
        exact Option.noConfusion h2
      · simp only [Mode.maybe_override, List.mem_map] at h
        obtain ⟨a, -, heq⟩ := h
        exact Error.noConfusion heq
      · rcases modeCheckErrors_shape _ _ _ h with heq | heq <;>
          exact Error.noConfusion heq
    · intro hne
      exact Or.inr (Or.inr (Or.inr (Or.inl ((mem_unknownBucketErrors _ _).mpr hne))))
  · intro line
    constructor
    · intro hmem
      rw [mem_check_annotations] at hmem
      rcases hmem with h | h | h | h | h | h | h
      · obtain ⟨pat, d, heq⟩ := phase1_errors_shape _ _ _ h
        exact Error.noConfusion heq
      · obtain ⟨pat, d, heq⟩ := phase2_errors_shape _ _ _ h
        exact Error.noConfusion heq
      · simp only [Mode.maybe_override, List.mem_map] at h
        obtain ⟨a, -, heq⟩ := h
        exact Error.noConfusion heq
      · obtain ⟨heq, -⟩ := unknownBucketErrors_shape _ _ _ h
        injection heq with h1 h2
        exact Option.noConfusion h2
      · obtain ⟨-, h2, h3, h4⟩ := (mem_collectLineErrors _ _ _ _ _ 0).mp h
        exact h4
      · simp only [Mode.maybe_override, List.mem_map] at h
        obtain ⟨a, -, heq⟩ := h
        exact Error.noConfusion heq
      · rcases modeCheckErrors_shape _ _ _ h with heq | heq <;>
          exact Error.noConfusion heq
    · intro hne
      have hlt : line < (phase2 (comments.errorMatchesFor revision) messages).1.length := by
        by_contra hge
        have hnone : ((phase2 (comments.errorMatchesFor revision) messages).1)[line]?
            = none := List.getElem?_eq_none (by omega)
        rw [hnone] at hne
        simp at hne
      rw [mem_check_annotations]
      refine Or.inr (Or.inr (Or.inr (Or.inr (Or.inl
        ((mem_collectLineErrors _ _ _ _ _ 0).mpr
          ⟨Nat.zero_le _, ?_, ?_, hne⟩)))))
      · rw [Nat.sub_zero]
        exact hlt
      · rw [Nat.sub_zero]
  · intro msgs pth hmem
    rw [mem_check_annotations] at hmem
    rcases hmem with h | h | h | h | h | h | h
    · obtain ⟨pat, d, heq⟩ := phase1_errors_shape _ _ _ h
      exact Error.noConfusion heq
    · obtain ⟨pat, d, heq⟩ := phase2_errors_shape _ _ _ h
      exact Error.noConfusion heq
    · simp only [Mode.maybe_override, List.mem_map] at h
      obtain ⟨a, -, heq⟩ := h
      exact Error.noConfusion heq
    · obtain ⟨heq, -⟩ := unknownBucketErrors_shape _ _ _ h
      simp only [Error.errorsWithoutPattern.injEq] at heq
      intro m hm
      rw [heq.1] at hm
      exact (List.mem_filter.mp hm).2
    · obtain ⟨ms, ln, heq, -, hall⟩ := collectLineErrors_shape _ _ _ _ _ h
      simp only [Error.errorsWithoutPattern.injEq] at heq
      intro m hm
      rw [heq.1] at hm
      exact hall m hm
    · simp only [Mode.maybe_override, List.mem_map] at h
      obtain ⟨a, -, heq⟩ := h
      exact Error.noConfusion heq
    · rcases modeCheckErrors_shape _ _ _ h with heq | heq <;>
        exact Error.noConfusion heq

/-- Claim C3: with the effective mode being the per-revision override when
(uniquely) present and `Config.mode` otherwise, `check_annotations` emits
`PatternFoundInPassTest` iff the effective mode is `Pass` or `Panic` and at
least one `error_pattern` or `error_matches` entry existed, and emits
`NoPatternsFound` iff the effective mode is `Fail{require_patterns: true}`
and no such entry existed. -/
theorem c3_mode_check (messages : List (List Message)) (unknown : List Message)
    (path : FsPath) (config : Config) (revision : String) (comments : Comments) :
    (∀ (m : Mode) (l : Nat),
        (comments.for_revision revision).filterMap (fun r => r.mode) = [(m, l)] →
      (Mode.maybe_override config.mode comments revision).1 = m)
    ∧ ((comments.for_revision revision).filterMap (fun r => r.mode) = [] →
      (Mode.maybe_override config.mode comments revision).1 = config.mode)
    ∧ (seenErrorMatch (comments.errorPatternsFor revision)
          (comments.errorMatchesFor revision) = true
        ↔ (comments.errorPatternsFor revision ≠ []
            ∨ comments.errorMatchesFor revision ≠ []))
    ∧ (Error.patternFoundInPassTest
          ∈ check_annotations messages unknown path config revision comments
        ↔ (((Mode.maybe_override config.mode comments revision).1 = Mode.pass
            ∨ (Mode.maybe_override config.mode comments revision).1 = Mode.panic)
          ∧ seenErrorMatch (comments.errorPatternsFor revision)
              (comments.errorMatchesFor revision) = true))
    ∧ (Error.noPatternsFound
          ∈ check_annotations messages unknown path config revision comments
        ↔ ((Mode.maybe_override config.mode comments revision).1 = Mode.fail true
          ∧ seenErrorMatch (comments.errorPatternsFor revision)
              (comments.errorMatchesFor revision) = false)) := by
  refine ⟨?_, ?_, ?_, ?_, ?_⟩
  · intro m l h
    unfold Mode.maybe_override
    rw [find_one_eq_single _ _ _ _ h]
    rfl
  · intro h
    unfold Mode.maybe_override
    rw [find_one_eq_nil _ _ _ h]
    rfl
  · simp [seenErrorMatch, List.isEmpty_iff]
  · rw [mem_check_annotations]
    constructor
    · rintro (h | h | h | h | h | h | h)
      · obtain ⟨pat, d, heq⟩ := phase1_errors_shape _ _ _ h
        exact Error.noConfusion heq.symm
      · obtain ⟨pat, d, heq⟩ := phase2_errors_shape _ _ _ h
        exact Error.noConfusion heq.symm
      · simp only [Mode.maybe_override, List.mem_map] at h
        obtain ⟨a, -, heq⟩ := h
        exact Error.noConfusion heq
      · obtain ⟨heq, -⟩ := unknownBucketErrors_shape _ _ _ h
        exact Error.noConfusion heq
      · obtain ⟨ms, ln, heq, -, -⟩ := collectLineErrors_shape _ _ _ _ _ h
        exact Error.noConfusion heq
      · simp only [Mode.maybe_override, List.mem_map] at h
        obtain ⟨a, -, heq⟩ := h
        exact Error.noConfusion heq
      · exact (mem_modeCheckErrors_pfipt _ _).mp h
    · intro hc
      exact Or.inr (Or.inr (Or.inr (Or.inr (Or.inr (Or.inr
        ((mem_modeCheckErrors_pfipt _ _).mpr hc))))))
  · rw [mem_check_annotations]
    constructor
    · rintro (h | h | h | h | h | h | h)
      · obtain ⟨pat, d, heq⟩ := phase1_errors_shape _ _ _ h
        exact Error.noConfusion heq.symm
      · obtain ⟨pat, d, heq⟩ := phase2_errors_shape _ _ _ h
        exact Error.noConfusion heq.symm
      · simp only [Mode.maybe_override, List.mem_map] at h
        obtain ⟨a, -, heq⟩ := h
        exact Error.noConfusion heq
      · obtain ⟨heq, -⟩ := unknownBucketErrors_shape _ _ _ h
        exact Error.noConfusion heq
      · obtain ⟨ms, ln, heq, -, -⟩ := collectLineErrors_shape _ _ _ _ _ h
        exact Error.noConfusion heq
      · simp only [Mode.maybe_override, List.mem_map] at h
        obtain ⟨a, -, heq⟩ := h
        exact Error.noConfusion heq
      · exact (mem_modeCheckErrors_npf _ _).mp h
    · intro hc
      exact Or.inr (Or.inr (Or.inr (Or.inr (Or.inr (Or.inr
        ((mem_modeCheckErrors_npf _ _).mpr hc))))))

/-- Witness for C1: a `WARN`-level annotation that fails to match leaves the
`ERROR`-level diagnostic in its line bucket (required level `Warn`), so
`check_annotations` reports it as `ErrorsWithoutPattern` at that line. -/
theorem c1_witness :
    Error.errorsWithoutPattern [⟨Level.error, "boom"⟩]
        (some (⟨"d", "f", "rs"⟩, 0))
      ∈ check_annotations [[⟨Level.error, "boom"⟩]] [] ⟨"d", "f", "rs"⟩
          ⟨Mode.fail true, "t", "t", OutputConflictHandling.error⟩ ""
          ⟨none, [([], { emptyRevisioned with
            error_matches := [⟨Pattern.subString "x", 3, 0, Level.warn⟩] })]⟩ :=
  ((c1_required_level_and_completeness [[⟨Level.error, "boom"⟩]] []
      ⟨"d", "f", "rs"⟩ ⟨Mode.fail true, "t", "t", OutputConflictHandling.error⟩ ""
      ⟨none, [([], { emptyRevisioned with
        error_matches := [⟨Pattern.subString "x", 3, 0, Level.warn⟩] })]⟩
    ).2.2.2.2.1 0).mpr (by decide)

/-- Witness for C3: a `Pass`-mode test containing an `error-pattern`
annotation receives `PatternFoundInPassTest`. -/
theorem c3_witness :
    Error.patternFoundInPassTest
      ∈ check_annotations [] [] ⟨"d", "f", "rs"⟩
          ⟨Mode.pass, "t", "t", OutputConflictHandling.error⟩ ""
          ⟨none, [([], { emptyRevisioned with
            error_patterns := [(Pattern.subString "e", 2)] })]⟩ :=
  ((c3_mode_check [] [] ⟨"d", "f", "rs"⟩
      ⟨Mode.pass, "t", "t", OutputConflictHandling.error⟩ ""
      ⟨none, [([], { emptyRevisioned with
        error_patterns := [(Pattern.subString "e", 2)] })]⟩
    ).2.2.2.1).mpr ⟨Or.inl (by decide), by decide⟩

theorem read_removeFile_self (fs : FileSystem) (p : FsPath) :
    (fs.removeFile p).read p = none := by
  induction fs with
  | nil => rfl
  | cons e rest ih =>
    obtain ⟨q, c⟩ := e
    by_cases hq : q = p
    · simp [FileSystem.removeFile, hq, ih]
    · simp [FileSystem.removeFile, FileSystem.read, hq, ih]

theorem read_removeFile_other (fs : FileSystem) (p q : FsPath) (h : q ≠ p) :
    (fs.removeFile p).read q = fs.read q := by
  induction fs with
  | nil => rfl
  | cons e rest ih =>
    obtain ⟨k, c⟩ := e
    by_cases hk : k = p
    · subst hk
      have hpq : ¬ k = q := fun hpq => h hpq.symm
      simp [FileSystem.removeFile, FileSystem.read, ih, hpq]
    · simp [FileSystem.removeFile, FileSystem.read, hk, ih]

theorem read_write_self (fs : FileSystem) (p : FsPath) (c : List Nat) :
    (fs.write p c).read p = some c := by
  simp [FileSystem.write, FileSystem.read]

theorem read_write_other (fs : FileSystem) (p q : FsPath) (c : List Nat)
    (h : q ≠ p) :
    (fs.write p c).read q = fs.read q := by
  have hne : ¬ p = q := fun hpq => h hpq.symm
  simp [FileSystem.write, FileSystem.read, hne, read_removeFile_other fs p q h]

/-- Claim C5: under `OutputConflictHandling::Error`, `check_output` emits
`OutputDiffers{path, actual, expected}` exactly when the normalized output
differs from the golden file's contents (a missing golden file reads as
empty) and leaves the filesystem alone; under `Bless` it deletes the golden
file when the normalized output is empty and overwrites it with the
normalized output otherwise, emitting no error; under `Ignore` it writes
nothing and emits nothing. -/
theorem c5_output_conflict (fs : FileSystem) (output : List Nat) (path : FsPath)
    (kind : String) (filters : List (Match × List Nat)) (config : Config)
    (comments : Comments) (revision : String) (rustc_lib_path : Option (List Nat))
    (n : List Nat) (op : FsPath)
    (hn : n = normalizeBytes path output filters comments revision rustc_lib_path)
    (hop : op = output_path path comments kind config.target revision) :
    (config.output_conflict_handling = OutputConflictHandling.error →
      check_output fs output path kind filters config comments revision rustc_lib_path
        = (fs,
          (if n = (fs.read op).getD [] then []
           else [Error.outputDiffers op n ((fs.read op).getD [])]),
          op))
    ∧ (config.output_conflict_handling = OutputConflictHandling.bless →
        (check_output fs output path kind filters config comments revision
            rustc_lib_path).2.1 = []
        ∧ ((check_output fs output path kind filters config comments revision
            rustc_lib_path).1).read op = (if n = [] then none else some n)
        ∧ ∀ q, q ≠ op →
            ((check_output fs output path kind filters config comments revision
                rustc_lib_path).1).read q = fs.read q)
    ∧ (config.output_conflict_handling = OutputConflictHandling.ignore →
        check_output fs output path kind filters config comments revision rustc_lib_path
          = (fs, [], op)) := by
  subst hn hop
  refine ⟨?_, ?_, ?_⟩
  · intro h
    simp only [check_output, h]
    by_cases hc : normalizeBytes path output filters comments revision rustc_lib_path
        = (fs.read (output_path path comments kind config.target revision)).getD []
    · rw [if_pos hc, if_pos hc]
    · rw [if_neg hc, if_neg hc]
  · intro h
    cases hc : (normalizeBytes path output filters comments revision
        rustc_lib_path).isEmpty with
    | true =>
      have hnil : normalizeBytes path output filters comments revision rustc_lib_path
          = [] := List.isEmpty_iff.mp hc
      refine ⟨?_, ?_, ?_⟩
      · simp [check_output, h, hc]
      · simp [check_output, h, hc, hnil, read_removeFile_self]
      · intro q hq
        simp [check_output, h, hc, read_removeFile_other fs _ q hq]
    | false =>
      have hnil : normalizeBytes path output filters comments revision rustc_lib_path
          ≠ [] := by
        intro hx
        rw [hx] at hc
        simp at hc
      refine ⟨?_, ?_, ?_⟩
      · simp [check_output, h, hc]
      · simp [check_output, h, hc, hnil, read_write_self]
      · intro q hq
        simp [check_output, h, hc, read_write_other fs _ q _ hq]
  · intro h
    simp [check_output, h]

/-- Witness for C5: blessing a non-empty normalized output overwrites the
golden file and the replaced contents are what a subsequent read returns. -/
theorem c5_witness :
    (⟨Mode.pass, "t", "t", OutputConflictHandling.bless⟩ : Config).output_conflict_handling
        = OutputConflictHandling.bless
    ∧ ((check_output [(⟨"d", "f", "stderr"⟩, [1, 2])] [9] ⟨"d", "f", "rs"⟩ "stderr" []
          ⟨Mode.pass, "t", "t", OutputConflictHandling.bless⟩ ⟨none, []⟩ ""
          none).1).read ⟨"d", "f", "stderr"⟩ = some [9] := by
  refine ⟨rfl, ?_⟩
  have h := (c5_output_conflict [(⟨"d", "f", "stderr"⟩, [1, 2])] [9] ⟨"d", "f", "rs"⟩
      "stderr" [] ⟨Mode.pass, "t", "t", OutputConflictHandling.bless⟩ ⟨none, []⟩ ""
      none _ _ rfl rfl).2.1 rfl
  exact h.2.1.trans (by decide)

theorem isInfixOfL_iff {α : Type} [BEq α] [LawfulBEq α] (needle : List α) :
    ∀ l : List α, isInfixOfL needle l = true ↔ needle <:+: l := by
  intro l
  induction l with
  | nil => simp [isInfixOfL, List.infix_nil, List.isEmpty_iff]
  | cons a rest ih =>
    simp [isInfixOfL, ih, List.infix_cons_iff, List.isPrefixOf_iff_prefix]

/-- Claim C6: `output_path` routes the golden file through a
`<bits>bit.<kind>` extension exactly when some applicable `Revisioned` sets
`stderr_per_bitwidth` (and plain `<kind>` otherwise), where `bits` is 64 for
a triple starting with `s390x` or containing `64` without ending in
`gnux32`/`gnu_ilp32`, 16 for a triple starting with `avr`, and 32 otherwise. -/
theorem c6_bitwidth_routing (path : FsPath) (comments : Comments) (kind : String)
    (target : String) (revision : String) :
    ((∃ r ∈ comments.for_revision revision, r.stderr_per_bitwidth = true) →
      output_path path comments kind target revision
        = path.with_extension (toString (get_pointer_width target) ++ "bit." ++ kind))
    ∧ ((∀ r ∈ comments.for_revision revision, r.stderr_per_bitwidth = false) →
      output_path path comments kind target revision = path.with_extension kind)
    ∧ (("s390x".data <+: target.data
        ∨ ("64".data <:+: target.data ∧ ¬ ("gnux32".data <:+ target.data)
            ∧ ¬ ("gnu_ilp32".data <:+ target.data))) →
      get_pointer_width target = 64)
    ∧ (¬ ("s390x".data <+: target.data
          ∨ ("64".data <:+: target.data ∧ ¬ ("gnux32".data <:+ target.data)
            ∧ ¬ ("gnu_ilp32".data <:+ target.data))) →
        "avr".data <+: target.data →
      get_pointer_width target = 16)
    ∧ (¬ ("s390x".data <+: target.data
          ∨ ("64".data <:+: target.data ∧ ¬ ("gnux32".data <:+ target.data)
            ∧ ¬ ("gnu_ilp32".data <:+ target.data))) →
        ¬ ("avr".data <+: target.data) →
      get_pointer_width target = 32) := by
  have hbool : ((containsStr target "64" && !endsWithStr target "gnux32"
        && !endsWithStr target "gnu_ilp32") || startsWithStr target "s390x") = true
      ↔ ("s390x".data <+: target.data
        ∨ ("64".data <:+: target.data ∧ ¬ ("gnux32".data <:+ target.data)
            ∧ ¬ ("gnu_ilp32".data <:+ target.data))) := by
    simp only [Bool.or_eq_true, Bool.and_eq_true, Bool.not_eq_true',
      containsStr, startsWithStr, endsWithStr, isInfixOfL_iff,
      List.isPrefixOf_iff_prefix]
    constructor
    · rintro (⟨⟨h1, h2⟩, h3⟩ | h)
      · exact Or.inr ⟨h1,
          fun hx => by rw [List.isSuffixOf_iff_suffix.mpr hx] at h2; exact absurd h2 (by simp),
          fun hx => by rw [List.isSuffixOf_iff_suffix.mpr hx] at h3; exact absurd h3 (by simp)⟩
      · exact Or.inl h
    · rintro (h | ⟨h1, h2, h3⟩)
      · exact Or.inr h
      · refine Or.inl ⟨⟨h1, ?_⟩, ?_⟩
        · cases hb : "gnux32".data.isSuffixOf target.data with
          | false => rfl
          | true => exact absurd (List.isSuffixOf_iff_suffix.mp hb) h2
        · cases hb : "gnu_ilp32".data.isSuffixOf target.data with
          | false => rfl
          | true => exact absurd (List.isSuffixOf_iff_suffix.mp hb) h3
  have havr : startsWithStr target "avr" = true ↔ "avr".data <+: target.data := by
    simp [startsWithStr, List.isPrefixOf_iff_prefix]
  refine ⟨?_, ?_, ?_, ?_, ?_⟩
  · intro h
    have hany : (comments.for_revision revision).any (fun r => r.stderr_per_bitwidth)
        = true := List.any_eq_true.mpr h
    simp [output_path, hany]
  · intro h
    have hany : (comments.for_revision revision).any (fun r => r.stderr_per_bitwidth)
        = false := by
      cases hb : (comments.for_revision revision).any (fun r => r.stderr_per_bitwidth) with
      | false => rfl
      | true =>
        obtain ⟨r, hr, hrb⟩ := List.any_eq_true.mp hb
        rw [h r hr] at hrb
        exact absurd hrb (by simp)
    simp [output_path, hany]
  · intro h
    unfold get_pointer_width
    rw [if_pos (hbool.mpr h)]
  · intro h1 h2
    unfold get_pointer_width
    rw [if_neg (by rw [hbool]; exact h1), if_pos (havr.mpr h2)]
  · intro h1 h2
    unfold get_pointer_width
    rw [if_neg (by rw [hbool]; exact h1), if_neg (by rw [havr]; exact h2)]

/-- Witness for C6: with `stderr-per-bitwidth` set and an `x86_64` target,
the golden path gains a `64bit.` infix. -/
theorem c6_witness :
    (∃ r ∈ (⟨none, [([], { emptyRevisioned with stderr_per_bitwidth := true })]⟩ :
        Comments).for_revision "", r.stderr_per_bitwidth = true)
    ∧ output_path ⟨"d", "f", "rs"⟩
        ⟨none, [([], { emptyRevisioned with stderr_per_bitwidth := true })]⟩
        "stderr" "x86_64-unknown-linux-gnu" "" = ⟨"d", "f", "64bit.stderr"⟩
    ∧ get_pointer_width "x86_64-unknown-linux-gnu" = 64 := by
  refine ⟨by decide, ?_, ?_⟩
  · exact ((c6_bitwidth_routing ⟨"d", "f", "rs"⟩
      ⟨none, [([], { emptyRevisioned with stderr_per_bitwidth := true })]⟩
      "stderr" "x86_64-unknown-linux-gnu" "").1 (by decide)).trans (by decide)
  · exact (c6_bitwidth_routing ⟨"d", "f", "rs"⟩
      ⟨none, [([], { emptyRevisioned with stderr_per_bitwidth := true })]⟩
      "stderr" "x86_64-unknown-linux-gnu" "").2.2.1
      (Or.inr ⟨by decide, by decide, by decide⟩)

theorem replaceGo_of_not_infix (needle rep : List Nat) :
    ∀ (b : Nat) (t : List Nat), ¬ needle <:+: t → replaceGo needle rep b t = t := by
  intro b
  induction b with
  | zero => intro t h; rfl
  | succ b ih =>
    intro t h
    cases t with
    | nil => rfl
    | cons c rest =>
      rw [replaceGo, if_neg (fun hb =>
        h (List.IsPrefix.isInfix (List.isPrefixOf_iff_prefix.mp hb)))]
      congr 1
      exact ih rest (fun hi => h (List.infix_cons hi))

theorem replaceAllExact_of_not_infix (needle rep t : List Nat)
    (h : ¬ needle <:+: t) : replaceAllExact needle rep t = t := by
  unfold replaceAllExact
  split
  · rfl
  · exact replaceGo_of_not_infix needle rep t.length t h

theorem replace_all_id_of_not_findsIn (m : Match) (t r : List Nat)
    (h : m.findsIn t = false) : m.replace_all t r = t := by
  cases m with
  | regex re => exact re.replaceAll_id t r h
  | exact needle =>
    simp only [Match.findsIn] at h
    apply replaceAllExact_of_not_infix
    intro hi
    rw [(isInfixOfL_iff needle t).mpr hi] at h
    exact absurd h (by simp)

theorem applyFilters_id (F : List (Match × List Nat)) :
    ∀ t : List Nat, (∀ f ∈ F, f.1.findsIn t = false) → applyFilters F t = t := by
  induction F with
  | nil => intro t _; rfl
  | cons f rest ih =>
    intro t h
    have hstep : applyFilters (f :: rest) t = applyFilters rest (f.1.replace_all t f.2) := rfl
    rw [hstep, replace_all_id_of_not_findsIn f.1 t f.2 (h f (by simp))]
    exact ih t (fun g hg => h g (by simp [hg]))

/-- Counterexample for C7 as stated: with `F = [(Exact "ab", "b")]` the
replacement `"b"` is a fixed point of `F` (normalizing it changes nothing),
yet normalizing `"aab"` once yields `"ab"` and twice yields `"b"` — the
replacement creates a fresh occurrence at the boundary, so one application is
not idempotent.  The bytes are `97 = a`, `98 = b`. -/
theorem c7_counterexample :
    (∀ f ∈ [((Match.exact [97, 98]), [98])],
        applyFilters [((Match.exact [97, 98]), [98])] f.2 = f.2)
    ∧ applyFilters [((Match.exact [97, 98]), [98])]
        (applyFilters [((Match.exact [97, 98]), [98])] [97, 97, 98])
      ≠ applyFilters [((Match.exact [97, 98]), [98])] [97, 97, 98] :=
  ⟨by decide, by decide⟩

/-- Claim C7 (amended): applying the ordered filter list twice equals
applying it once whenever no filter of `F` still finds a match in the
once-normalized text (the fixed-point condition of the original claim is not
sufficient: see the counterexample, where a replacement glues a new
occurrence together at the boundary). -/
theorem c7_filter_idempotence_amended (F : List (Match × List Nat))
    (text : List Nat)
    (h : ∀ f ∈ F, f.1.findsIn (applyFilters F text) = false) :
    applyFilters F (applyFilters F text) = applyFilters F text :=
  applyFilters_id F (applyFilters F text) h

/-- Witness for C7 (amended): the needle `"ab"` does not occur in the
normalized form of `"x"`, so a second normalization changes nothing. -/
theorem c7_witness :
    (∀ f ∈ [((Match.exact [97, 98]), [98])],
        f.1.findsIn (applyFilters [((Match.exact [97, 98]), [98])] [120]) = false)
    ∧ applyFilters [((Match.exact [97, 98]), [98])]
        (applyFilters [((Match.exact [97, 98]), [98])] [120])
      = applyFilters [((Match.exact [97, 98]), [98])] [120] :=
  ⟨by decide, c7_filter_idempotence_amended _ _ (by decide)⟩

theorem dfsQueueSends_append (file_filter : List String → Bool)
    (a b : List (List String × FsEntry)) :
    dfsQueueSends file_filter (a ++ b)
      = dfsQueueSends file_filter a ++ dfsQueueSends file_filter b := by
  induction a with
  | nil => rfl
  | cons pe rest ih => simp [dfsQueueSends, ih]

theorem dfsList_eq_dfsQueueSends (file_filter : List String → Bool)
    (p : List String) :
    ∀ es : List FsEntry,
      dfsList file_filter p es
        = dfsQueueSends file_filter (es.map (fun e => (p ++ [e.name], e))) := by
  intro es
  induction es with
  | nil => simp [dfsList, dfsQueueSends]
  | cons e rest ih => simp [dfsList, dfsQueueSends, ih]

/-- Counterexample for C9 as stated: the producer's work list is a FIFO
queue (`VecDeque` popped from the front, children pushed to the back), so
the walk is breadth-first, not depth-first.  On a root holding a directory
`a` (containing `x`) and a file `b`, the producer sends `root/b` before
`root/a/x`, while a depth-first walk sends `root/a/x` first. -/
theorem c9_counterexample :
    producer (fun _ => true) [(["root"], FsEntry.dir "root"
        [FsEntry.dir "a" [FsEntry.file "x"], FsEntry.file "b"])]
      ≠ dfsQueueSends (fun _ => true) [(["root"], FsEntry.dir "root"
        [FsEntry.dir "a" [FsEntry.file "x"], FsEntry.file "b"])] := by
  have hab : (("a" : String).data ≤ ("b" : String).data) := by decide
  simp [producer, dfsQueueSends, dfsSends, dfsList, sortEntries, insertSorted, FsEntry.name, hab]

/-- Claim C9 (amended): the producer walks the queue breadth-first (FIFO);
it still never descends into a directory named `auxiliary`, visits the
entries of each directory in ascending file-name order, and sends exactly
the non-directory paths satisfying `file_filter` — the same multiset of
paths as the depth-first enumeration, though not in depth-first order. -/
theorem c9_producer_sends_perm (file_filter : List String → Bool) :
    ∀ todo : List (List String × FsEntry),
      (producer file_filter todo).Perm (dfsQueueSends file_filter todo) := by
  intro todo
  induction todo using producer.induct file_filter with
  | case1 => simp [producer, dfsQueueSends]
  | case2 p entries rest ih =>
    have hL : producer file_filter ((p, FsEntry.dir "auxiliary" entries) :: rest)
        = producer file_filter rest := by
      simp [producer]
    have hR : dfsQueueSends file_filter ((p, FsEntry.dir "auxiliary" entries) :: rest)
        = dfsQueueSends file_filter rest := by
      simp [dfsQueueSends, dfsSends]
    rw [hL, hR]
    exact ih
  | case3 p dname entries rest h ih =>
    have hL : producer file_filter ((p, FsEntry.dir dname entries) :: rest)
        = producer file_filter
            (rest ++ (sortEntries entries).map (fun e => (p ++ [e.name], e))) := by
      simp [producer, h]
    have hR : dfsQueueSends file_filter ((p, FsEntry.dir dname entries) :: rest)
        = dfsList file_filter p (sortEntries entries)
            ++ dfsQueueSends file_filter rest := by
      simp [dfsQueueSends, dfsSends, h]
    rw [hL, hR]
    refine ih.trans ?_
    rw [dfsQueueSends_append, dfsList_eq_dfsQueueSends]
    exact List.perm_append_comm
  | case4 p name rest hf ih =>
    have hL : producer file_filter ((p, FsEntry.file name) :: rest)
        = p :: producer file_filter rest := by
      simp [producer, hf]
    have hR : dfsQueueSends file_filter ((p, FsEntry.file name) :: rest)
        = p :: dfsQueueSends file_filter rest := by
      simp [dfsQueueSends, dfsSends, hf]
    rw [hL, hR]
    exact ih.cons p
  | case5 p name rest hf ih =>
    have hL : producer file_filter ((p, FsEntry.file name) :: rest)
        = producer file_filter rest := by
      simp [producer, hf]
    have hR : dfsQueueSends file_filter ((p, FsEntry.file name) :: rest)
        = dfsQueueSends file_filter rest := by
      simp [dfsQueueSends, dfsSends, hf]
    rw [hL, hR]
    exact ih
